import Mathlib

/-
Verification of the EyeD iris-engine core against its specification.

The Lean definitions below are shallow embeddings of the Python sources of
the repository (src/iris-engine/src).  Pure functions are translated to
Lean functions; stateful or concurrent code is modelled by explicit state
passing or small step relations; fallible code returns Except or Option.
External libraries (numpy, the cryptography AESGCM primitive, the
Open-IRIS matcher, NATS, Redis) are modelled by their documented
contracts: each such modelling choice is recorded in the doc comment of
the definition that uses it.
-/

namespace EyeD

/-- Result of template matching against the gallery.
Embeds `MatchResult` from src/models.py.  The Python float distance is
modelled as a rational number. -/
structure MatchResult where
  hamming_distance : ℚ
  is_match : Bool
  matched_identity_id : Option String := none
  matched_identity_name : Option String := none
  best_rotation : Int := 0
deriving Repr, DecidableEq

/-- The no-match result `MatchResult(hamming_distance=1.0, is_match=False)`
returned throughout the sources on empty galleries and on failures. -/
def noMatchResult : MatchResult :=
  { hamming_distance := 1, is_match := false }

/- ------------------------------------------------------------------
   src/crypto.py — AES-256-GCM envelope
   ------------------------------------------------------------------ -/

/-- First four bytes of an NPZ (ZIP) archive, `_NPZ_MAGIC = b"PK\x03\x04"`
in src/crypto.py. -/
def npzMagic : List Nat := [0x50, 0x4B, 0x03, 0x04]

/-- Five-byte marker of an encrypted blob, `_ENCRYPTED_PREFIX = b"EYED1"`
in src/crypto.py. -/
def encryptedMagic : List Nat := [0x45, 0x59, 0x45, 0x44, 0x31]

/-- Embedding of `decrypt` from src/crypto.py.  Byte strings are lists of
byte values.  The AESGCM library primitive is an external dependency and
is passed in as the function `aesDec key nonce body`, which either
recovers a plaintext or fails (tag mismatch).  The control flow mirrors
the source: empty data and data whose first four bytes are the NPZ magic
pass through unchanged; data whose first five bytes differ from the
`EYED1` marker passes through unchanged; otherwise the key is required
(`RuntimeError` when absent, modelled as `Except.error`), the nonce is
bytes 5..16 and the remainder is the GCM ciphertext plus tag. -/
def decrypt (key : Option (List Nat))
    (aesDec : List Nat → List Nat → List Nat → Except Unit (List Nat))
    (data : List Nat) : Except String (List Nat) :=
  if data = [] then .ok data
  else if data.take 4 = npzMagic then .ok data
  else if data.take 5 ≠ encryptedMagic then .ok data
  else
    match key with
    | none => .error "encrypted data found but EYED_ENCRYPTION_KEY is not set"
    | some k =>
      match aesDec k ((data.drop 5).take 12) (data.drop 17) with
      | .ok pt => .ok pt
      | .error _ => .error "InvalidTag"

/- ------------------------------------------------------------------
   src/db.py — template codec (pack_codes / unpack_codes)
   ------------------------------------------------------------------ -/

/-- A numpy array as stored in an NPZ archive: shape plus flat contents. -/
structure NDArray where
  shape : List Nat
  data : List Int
deriving Repr, DecidableEq, Inhabited

/-- Member name that `np.savez_compressed(buf, *codes)` assigns to the
positional argument at index `i`. -/
def arrName (i : Nat) : String := "arr_" ++ toString i

/-- Lexicographic comparison of character lists by code point, the order
used by Python `sorted` on strings. -/
def charListLe : List Char → List Char → Bool
  | [], _ => true
  | _ :: _, [] => false
  | a :: as, b :: bs =>
    if a.val < b.val then true
    else if b.val < a.val then false
    else charListLe as bs

/-- Lexicographic comparison of strings by code point. -/
def strLe (a b : String) : Bool := charListLe a.data b.data

/-- Insert a string into a list sorted by `strLe`. -/
def insertSorted (a : String) : List String → List String
  | [] => [a]
  | b :: bs => if strLe a b then a :: b :: bs else b :: insertSorted a bs

/-- Insertion sort by `strLe`: the model of Python `sorted` on a list of
member names. -/
def sortStrings : List String → List String
  | [] => []
  | a :: as => insertSorted a (sortStrings as)

/-- Archive written by `np.savez_compressed(buf, *codes)`: the arrays in
positional order, each under its `arr_i` member name.  The numpy
save/load pair is an external dependency; its contract is that loading
returns exactly the saved member-name-to-array mapping. -/
def mkArchive (codes : List NDArray) : List (String × NDArray) :=
  codes.enum.map (fun p => (arrName p.1, p.2))

/-- Member access `npz[k]` on a loaded archive. -/
def lookupMember (k : String) : List (String × NDArray) → NDArray
  | [] => default
  | kv :: rest => if k = kv.1 then kv.2 else lookupMember k rest

/-- Embedding of `[npz[k] for k in sorted(npz.files)]` from
`unpack_codes` in src/db.py: the members in sorted name order. -/
def npzLoad (archive : List (String × NDArray)) : List NDArray :=
  (sortStrings (archive.map Prod.fst)).map (fun k => lookupMember k archive)

/-- A packed blob.  `np.savez_compressed` output is modelled as its
archive; the AES-256-GCM envelope produced by `encrypt` in src/crypto.py
is modelled as the payload tagged with the key that encrypted it, which
embeds the AESGCM library contract that decryption with the matching key
recovers the exact plaintext and fails under any other key. -/
inductive Blob where
  | npz (archive : List (String × NDArray))
  | enc (key : List Nat) (archive : List (String × NDArray))
deriving Repr, DecidableEq

/-- Embedding of `pack_codes` from src/db.py: serialize the arrays with
`np.savez_compressed`, then encrypt when `EYED_ENCRYPTION_KEY` is set
(`okey = some k`) and pass through when it is not (`okey = none`). -/
def pack_codes (okey : Option (List Nat)) (codes : List NDArray) : Blob :=
  match okey with
  | none => .npz (mkArchive codes)
  | some k => .enc k (mkArchive codes)

/-- Embedding of `unpack_codes` from src/db.py: `decrypt` first (plain
NPZ passes through; an encrypted blob needs the configured key, failing
with a `RuntimeError` when the key is absent and with `InvalidTag` when
it differs), then load members in sorted name order. -/
def unpack_codes (okey : Option (List Nat)) (b : Blob) : Except String (List NDArray) :=
  match b with
  | .npz a => .ok (npzLoad a)
  | .enc k a =>
    match okey with
    | none => .error "encrypted data found but EYED_ENCRYPTION_KEY is not set"
    | some k2 => if k2 = k then .ok (npzLoad a) else .error "InvalidTag"

/-- Member names of the archive written for `n` positional arrays. -/
def memberNames (n : Nat) : List String := (List.range n).map arrName

/- ------------------------------------------------------------------
   src/matcher.py — gallery and plaintext 1:N matching
   ------------------------------------------------------------------ -/

/-- An enrolled template in the in-memory gallery, embedding
`GalleryEntry` from src/matcher.py.  The `template` object (an opaque
Open-IRIS value) does not appear: the per-pair matcher computation on it
is modelled by the oracle passed to `matchOneToN`.  Ciphertexts are
opaque handles (`Nat`); popcount sidecars are integers. -/
structure GalleryEntry where
  identity_id : String
  template_id : String
  identity_name : String
  eye_side : String
  he_iris_cts : List Nat := []
  he_mask_cts : List Nat := []
  iris_popcount : List Int := []
  mask_popcount : List Int := []
deriving Repr, DecidableEq

/-- The best-so-far accumulator loop shared by `TemplateGallery._match`
and `he_match_1n_local`: iterate the snapshot in order; an entry whose
computation yields no distance (a raised and logged per-entry exception
in `_match`, an entry without ciphertexts in `he_match_1n_local`) is
skipped; a distance strictly below the best so far replaces it together
with its entry.  The initial accumulator is `(1, none)` exactly as
`best_distance = 1.0`, `best_entry = None` in the source. -/
def matchScan (run : GalleryEntry → Option ℚ) :
    List GalleryEntry → ℚ × Option GalleryEntry → ℚ × Option GalleryEntry
  | [], s => s
  | e :: rest, (bd, be) =>
    match run e with
    | none => matchScan run rest (bd, be)
    | some d => if d < bd then matchScan run rest (d, some e) else matchScan run rest (bd, be)

/-- Embedding of `TemplateGallery._match` from src/matcher.py.  The
snapshot `entries` is the list cloned under the lock; `run e` is the
outcome of `matcher.run(template_probe, e.template)` with `none`
standing for a raised (and logged) exception.  On an empty snapshot the
no-match result is returned; otherwise the loop tracks the strict
minimum, `is_match` compares it with the threshold, and the matched
identity fields are filled only when `is_match` holds and a best entry
exists.  `best_rotation` is never updated by the source loop. -/
def matchOneToN (run : GalleryEntry → Option ℚ) (entries : List GalleryEntry)
    (threshold : ℚ) : MatchResult :=
  if entries = [] then noMatchResult
  else
    { hamming_distance := (matchScan run entries (1, none)).1
      is_match := decide ((matchScan run entries (1, none)).1 < threshold)
      matched_identity_id :=
        if (matchScan run entries (1, none)).1 < threshold then
          ((matchScan run entries (1, none)).2).map (fun e => e.identity_id)
        else none
      matched_identity_name :=
        if (matchScan run entries (1, none)).1 < threshold then
          ((matchScan run entries (1, none)).2).map (fun e => e.identity_name)
        else none
      best_rotation := 0 }

/-- Observable side effects of the matching path, used to state that a
match on an empty snapshot touches neither the store nor the matcher.
`storeAccess` is emitted only by the embedding of `load_from_db`;
the bodies of `_match` and `_match_he_with_cts` contain no store call. -/
inductive Effect where
  | storeAccess
  | matcherRun (template_id : String)
  | heOp (template_id : String)
deriving Repr, DecidableEq

/-- Effect trace of `TemplateGallery._match`: one matcher invocation per
snapshot entry, nothing on an empty snapshot, and no store access in
either case. -/
def matchOneToNEffects (entries : List GalleryEntry) : List Effect :=
  if entries = [] then []
  else entries.map (fun e => Effect.matcherRun e.template_id)

/- ------------------------------------------------------------------
   src/matcher.py — atomic reload versus concurrent matching
   ------------------------------------------------------------------ -/

/-- Atomic gallery events.  `load_from_db` builds its `new_entries` list
entirely outside the lock (pure computation, no shared state touched)
and installs it with the single assignment `self._entries = new_entries`
under the lock: that assignment is `swap`.  `_match` copies the list
reference under the lock (`entries = list(self._entries)`): that copy is
`snapshot`.  An interleaving of reloads and matches is a list of these
two events. -/
inductive GEvent where
  | swap (entries : List GalleryEntry)
  | snapshot
deriving Repr, DecidableEq

/-- The snapshots observed by the matching operations of a trace, given
the entry list installed at the start. -/
def observations : List GEvent → List GalleryEntry → List (List GalleryEntry)
  | [], _ => []
  | .snapshot :: tr, cur => cur :: observations tr cur
  | .swap l :: tr, _ => observations tr l

/-- The lists installed by the swap events of a trace, in order. -/
def swapsOf (tr : List GEvent) : List (List GalleryEntry) :=
  tr.filterMap (fun ev => match ev with | .swap l => some l | .snapshot => none)

/- ------------------------------------------------------------------
   src/he_matcher.py — local HE matching (secret key in-process)
   ------------------------------------------------------------------ -/

/-- Number of plaintext slots of one BFV ciphertext.

Modelled from the spec: `IRIS_CODE_SLOTS` lives in src/he_context.py,
which is not among the provided sources (only its importers are).  The
spec fixes one ciphertext per scale holding a flattened binary array of
shape (16, 256, 2), that is H·W·2 = 8192 slots, and states the per-scale
denominator `total_bits_i` as 8192 bits. -/
def IRIS_CODE_SLOTS : Nat := 8192

/-- Fractional distance that `he_match_1n_local` in src/he_matcher.py
computes for one gallery entry: over the first
`n = min(len(probe_iris_cts), len(entry.he_iris_cts))` scales it sums
`xor_count = pop_a + pop_b - 2 * ip_val`, where `ip_val` is the
decrypted encrypted inner product, counts `IRIS_CODE_SLOTS` bits per
scale, and divides.  `ip ctA ctB` models
`decrypt_scalar(he_inner_product(ctA, ctB))`, the external HE-library
pair.  Sidecar indexing `popcount[i]` is total here via a default of 0;
the Python source would raise on an out-of-range index, which the data
invariant (one popcount per ciphertext) rules out. -/
def heEntryDistance (ip : Nat → Nat → Int) (probeCts : List Nat)
    (probePop : List Int) (e : GalleryEntry) : ℚ :=
  let n := min probeCts.length e.he_iris_cts.length
  let totalXor : Int :=
    ((List.range n).map (fun i =>
      probePop.getD i 0 + e.iris_popcount.getD i 0
        - 2 * ip (probeCts.getD i 0) (e.he_iris_cts.getD i 0))).sum
  let totalBits : Nat := n * IRIS_CODE_SLOTS
  if totalBits > 0 then (totalXor : ℚ) / (totalBits : ℚ) else 1

/-- Per-entry outcome of the `he_match_1n_local` loop: an entry without
ciphertexts is skipped (`continue` in the source), any other entry gets
its fractional distance. -/
def heRun (ip : Nat → Nat → Int) (probeCts : List Nat) (probePop : List Int)
    (e : GalleryEntry) : Option ℚ :=
  if e.he_iris_cts = [] then none
  else some (heEntryDistance ip probeCts probePop e)

/-- Embedding of `he_match_1n_local` from src/he_matcher.py: on an empty
gallery return the no-match result, otherwise run the best-so-far loop
over the entries and fill the matched identity fields exactly as the
source does (only when `is_match` holds and a best entry exists). -/
def he_match_1n_local (ip : Nat → Nat → Int) (probeCts : List Nat)
    (probePop : List Int) (entries : List GalleryEntry) (threshold : ℚ) : MatchResult :=
  if entries = [] then noMatchResult
  else
    { hamming_distance := (matchScan (heRun ip probeCts probePop) entries (1, none)).1
      is_match := decide ((matchScan (heRun ip probeCts probePop) entries (1, none)).1 < threshold)
      matched_identity_id :=
        if (matchScan (heRun ip probeCts probePop) entries (1, none)).1 < threshold then
          ((matchScan (heRun ip probeCts probePop) entries (1, none)).2).map
            (fun e => e.identity_id)
        else none
      matched_identity_name :=
        if (matchScan (heRun ip probeCts probePop) entries (1, none)).1 < threshold then
          ((matchScan (heRun ip probeCts probePop) entries (1, none)).2).map
            (fun e => e.identity_name)
        else none }

/-- Embedding of `TemplateGallery._match_he_with_cts` from
src/matcher.py: take the snapshot, return the no-match result when it is
empty, otherwise decrypt locally when the secret key is in-process and
delegate to the key-service path otherwise (`remote` stands for the
async `he_match_1n` round trip, modelled separately below on the
payload level). -/
def matchHeWithCts (hasSecretKey : Bool) (ip : Nat → Nat → Int)
    (probeCts : List Nat) (probePop : List Int)
    (remote : List GalleryEntry → MatchResult)
    (entries : List GalleryEntry) (threshold : ℚ) : MatchResult :=
  if entries = [] then noMatchResult
  else if hasSecretKey then he_match_1n_local ip probeCts probePop entries threshold
  else remote entries

/-- Effect trace of `_match_he_with_cts`: per-entry HE work on a
non-empty snapshot, nothing at all on an empty one, and never a store
access. -/
def matchHeWithCtsEffects (entries : List GalleryEntry) : List Effect :=
  if entries = [] then []
  else entries.map (fun e => Effect.heOp e.template_id)

/- ------------------------------------------------------------------
   src/key_client.py — remote decrypt requests
   ------------------------------------------------------------------ -/

/-- A payload entry of a decrypt-batch request, reduced to what the
chunking logic of `request_decrypt_batch` inspects: its list of
serialized inner-product ciphertexts (opaque handles).  The identity and
popcount fields ride along unchanged and are irrelevant to chunk
boundaries. -/
abbrev PayloadEntry : Type := List Nat

/-- Total ciphertext count of a chunk, the quantity
`sum(len(e["enc_inner_products_b64"]) for e in ...)` in src/key_client.py. -/
def sumCts (chunk : List PayloadEntry) : Nat :=
  (chunk.map (fun e => List.length e)).sum

/-- The limit `_MAX_CTS_PER_REQUEST = 16` from src/key_client.py. -/
def MAX_CTS_PER_REQUEST : Nat := 16

/-- Running-best update of `request_decrypt_batch`: a reply replaces the
best so far only when its distance is strictly smaller. -/
def better (b r : MatchResult) : MatchResult :=
  if r.hamming_distance < b.hamming_distance then r else b

/-- The chunked loop of `request_decrypt_batch` from src/key_client.py.
State: running best, chunk under construction, its ciphertext count.
When adding the next entry would push the chunk over the limit and the
chunk is non-empty, the chunk is sent and the best updated; the entry is
then appended to the (fresh) chunk.  A trailing non-empty chunk is sent
at the end.  `send` stands for `_send_decrypt_request`; the function
also returns the list of requests actually sent, in order. -/
def chunkLoop (send : List PayloadEntry → MatchResult) (best : MatchResult)
    (chunk : List PayloadEntry) (chunkCts : Nat) :
    List PayloadEntry → MatchResult × List (List PayloadEntry)
  | [] =>
    if chunk = [] then (best, [])
    else (better best (send chunk), [chunk])
  | e :: rest =>
    if chunkCts + e.length > MAX_CTS_PER_REQUEST ∧ chunk ≠ [] then
      let out := chunkLoop send (better best (send chunk)) [e] e.length rest
      (out.1, chunk :: out.2)
    else
      chunkLoop send best (chunk ++ [e]) (chunkCts + e.length) rest

/-- Embedding of `request_decrypt_batch` from src/key_client.py.  When
NATS is not connected the no-match result is returned without sending
anything.  When the total ciphertext count fits the limit a single
request carries all entries; otherwise the chunked loop runs with the
no-match result as initial best.  The base64 re-encoding of the
ciphertext bytes is a bijective recoding and is modelled as the
identity on the opaque handles.  The returned pair is (result, requests
sent in order). -/
def request_decrypt_batch (connected : Bool)
    (send : List PayloadEntry → MatchResult) (entries : List PayloadEntry) :
    MatchResult × List (List PayloadEntry) :=
  if connected = false then (noMatchResult, [])
  else if sumCts entries ≤ MAX_CTS_PER_REQUEST then (send entries, [entries])
  else chunkLoop send noMatchResult [] 0 entries

/-- Outcome of one `_send_decrypt_request` round trip in
src/key_client.py.  `requestFailed` covers an unavailable transport, a
raised request error and a timeout; `parseFailed` covers a reply that
`json.loads` rejects (both are caught by the same handler in the
source); `errorReply` is a parsed reply carrying an `error` field;
`reply` is a parsed success, with each field optional exactly as the
`data.get(...)` defaults allow. -/
inductive DecryptOutcome where
  | requestFailed
  | parseFailed
  | errorReply (msg : String)
  | reply (hd : Option ℚ) (im : Option Bool) (mid mname : Option String)
deriving Repr, DecidableEq

/-- Embedding of `_send_decrypt_request` from src/key_client.py as a
function of the round-trip outcome: every failure shape yields the
no-match result (the source catches all exceptions and logs), and a
success is read out with defaults `hamming_distance = 1.0`,
`is_match = False`. -/
def send_decrypt_request (o : DecryptOutcome) : MatchResult :=
  match o with
  | .requestFailed => noMatchResult
  | .parseFailed => noMatchResult
  | .errorReply _ => noMatchResult
  | .reply hd im mid mname =>
    { hamming_distance := hd.getD 1
      is_match := im.getD false
      matched_identity_id := mid
      matched_identity_name := mname }

/-- Whether an outcome is one of the failure shapes. -/
def DecryptOutcome.isFailure : DecryptOutcome → Bool
  | .reply _ _ _ _ => false
  | _ => true

/- ------------------------------------------------------------------
   src/redis_cache.py and src/db_drain.py — enrollment drain
   ------------------------------------------------------------------ -/

/-- One enrollment record pushed to the Redis queue by
`push_enrollment`.  `payload` stands for the remaining serialized fields
(codes, width, height, n_scales, quality, device), which the drain
copies through unchanged. -/
structure EnrollItem where
  template_id : String
  identity_id : String
  identity_name : String
  eye_side : String
  payload : Nat := 0
deriving Repr, DecidableEq

/-- Embedding of `pop_enrollments` from src/redis_cache.py: the pipelined
`LRANGE key 0 batch-1` plus `LTRIM key batch -1` executes atomically and
splits the queue into the popped batch and the remainder. -/
def pop_enrollments (batch : Nat) (q : List EnrollItem) :
    List EnrollItem × List EnrollItem :=
  (q.take batch, q.drop batch)

/-- State visible to the enrollment drain: the Redis queue, the upserted
identity rows (id, name) and the inserted template rows. -/
structure DrainState where
  queue : List EnrollItem
  identities : List (String × String)
  templates : List EnrollItem
deriving Repr, DecidableEq

/-- Identity rows of a batch with duplicate (id, name) pairs removed,
the `list({(item["identity_id"], item["identity_name"]) for item in
items})` step of `_batch_insert` in src/db_drain.py.  Python set order
is unspecified; first occurrence is the canonical representative here
and no theorem below depends on the order. -/
def dedupIdentityRows (items : List EnrollItem) : List (String × String) :=
  (items.map (fun i => (i.identity_id, i.identity_name))).dedup

/-- Upsert of one identity row, `INSERT ... ON CONFLICT (identity_id)
DO UPDATE SET name = EXCLUDED.name`. -/
def upsertIdentity (rows : List (String × String)) (r : String × String) :
    List (String × String) :=
  if rows.any (fun x => decide (x.1 = r.1)) then
    rows.map (fun x => if x.1 = r.1 then r else x)
  else rows ++ [r]

/-- Where a `_batch_insert` call fails, if at all.  The body of
`_batch_insert` in src/db_drain.py issues two sequential `executemany`
calls under one try block — first the identity upserts, then the
template inserts — and the handler only logs.  Each `executemany` call
executes atomically on its own, but the two calls are not jointly
transactional: a failure of the template insert happens after the
identity upserts have committed.  `failIdentities` is a raise in the
first call (nothing committed); `failTemplates` is a raise in the
second call (identity upserts already committed); `ok` is success. -/
inductive DrainOutcome where
  | ok
  | failIdentities
  | failTemplates
deriving Repr, DecidableEq

/-- Embedding of one `EnrollmentDrainWriter._flush` tick
(src/db_drain.py): pop up to `batch` items atomically, return when the
batch is empty, otherwise run `_batch_insert` with the given outcome.
An exception is caught and logged and the loop continues; whichever
statements committed before the failing one stay committed, and the
popped items are gone from the queue in every case. -/
def drainFlush (outcome : DrainOutcome) (batch : Nat) (s : DrainState) : DrainState :=
  let popped := pop_enrollments batch s.queue
  if popped.1 = [] then { s with queue := popped.2 }
  else
    match outcome with
    | .failIdentities => { s with queue := popped.2 }
    | .failTemplates =>
      { queue := popped.2
        identities := (dedupIdentityRows popped.1).foldl upsertIdentity s.identities
        templates := s.templates }
    | .ok =>
      { queue := popped.2
        identities := (dedupIdentityRows popped.1).foldl upsertIdentity s.identities
        templates := s.templates ++ popped.1 }

/- ------------------------------------------------------------------
   src/routes/enroll.py — deterministic batch identities
   ------------------------------------------------------------------ -/

/-- One item of the batch work list `[(subject_id, eye_side, image_path)]`
built by `enroll_batch`. -/
structure WorkItem where
  subject_id : String
  eye_side : String
  image_path : String
deriving Repr, DecidableEq

/-- The RFC 4122 URL namespace `uuid.NAMESPACE_URL` used by the batch
identity derivation. -/
def NAMESPACE_URL : String := "6ba7b811-9dad-11d1-80b4-00c04fd430c8"

/-- Identity derived for a batch subject in `enroll_batch._stream`
(src/routes/enroll.py): `ns = uuid5(NAMESPACE_URL, "eyed:bulk:" +
dataset)` once per batch, then `identity_id = uuid5(ns, subject_id)` per
item.  `u5 namespace name` models the Python `uuid.uuid5`, an external
deterministic function of its two arguments (SHA-1 based), with UUIDs as
strings. -/
def batchIdentity (u5 : String → String → String) (dataset subject : String) : String :=
  u5 (u5 NAMESPACE_URL ("eyed:bulk:" ++ dataset)) subject

/-- The (subject_id, identity_id) pairs a batch run assigns, in work-list
order.  The stream later emits results in completion order, a
permutation of this list. -/
def batchAssignments (u5 : String → String → String) (dataset : String)
    (work : List WorkItem) : List (String × String) :=
  work.map (fun w => (w.subject_id, batchIdentity u5 dataset w.subject_id))

/-- Queue state used by the concrete drain evaluations below. -/
def c7Item : EnrollItem :=
  { template_id := "t1", identity_id := "i1", identity_name := "n1", eye_side := "left" }

/-- Drain state holding exactly one pending enrollment record. -/
def c7State : DrainState := { queue := [c7Item], identities := [], templates := [] }

/-- Gallery entry used by the concrete reload/match trace below. -/
def c3Entry : GalleryEntry :=
  { identity_id := "a", template_id := "t", identity_name := "n", eye_side := "left" }

/-- Gallery entry whose per-pair computation raises in the concrete
plaintext 1:N evaluation below. -/
def c2EntryA : GalleryEntry :=
  { identity_id := "idA", template_id := "tA", identity_name := "A", eye_side := "left" }

/-- Gallery entry with a successful per-pair computation in the concrete
plaintext 1:N evaluation below. -/
def c2EntryB : GalleryEntry :=
  { identity_id := "idB", template_id := "tB", identity_name := "B", eye_side := "right" }

/-- Matcher oracle for the concrete plaintext 1:N evaluation: the first
entry raises, the second scores zero. -/
def c2Run : GalleryEntry → Option ℚ :=
  fun e => if e.template_id = "tA" then none else some 0

/-- Snapshot for the concrete plaintext 1:N evaluation. -/
def c2Entries : List GalleryEntry := [c2EntryA, c2EntryB]

/-- Inner-product oracle for the concrete local HE evaluation. -/
def c4Ip : Nat → Nat → Int := fun _ _ => 0

/-- Probe ciphertext handles for the concrete local HE evaluation. -/
def c4Cts : List Nat := [5]

/-- Probe iris popcounts for the concrete local HE evaluation. -/
def c4Pop : List Int := [3]

/-- Gallery entry with one ciphertext and its popcount sidecar for the
concrete local HE evaluation. -/
def c4Entry : GalleryEntry :=
  { identity_id := "idC", template_id := "tC", identity_name := "C",
    eye_side := "left", he_iris_cts := [7], iris_popcount := [1] }

/-- Gallery for the concrete local HE evaluation. -/
def c4Entries : List GalleryEntry := [c4Entry]

/-- Reply oracle for the concrete chunking evaluations: every request is
answered with the no-match result. -/
def c5Send : List PayloadEntry → MatchResult := fun _ => noMatchResult

/-- Batch holding a single payload entry that carries 17 serialized
ciphertexts, one more than the per-request limit. -/
def c5Entries : List PayloadEntry := [List.range 17]

/-- One array of the eleven-array codec evaluation: shape `[1]`, single
element `i`, so that all eleven arrays are pairwise distinct. -/
def c1Arr (i : Int) : NDArray := { shape := [1], data := [i] }

/-- Eleven pairwise distinct arrays. -/
def c1Codes : List NDArray := (List.range 11).map (fun i => c1Arr (Int.ofNat i))

/-- The eleven arrays in the order produced by sorting the member names
`arr_0 ... arr_10` lexicographically: `arr_10` sorts between `arr_1` and
`arr_2`. -/
def c1Shuffled : List NDArray :=
  [c1Arr 0, c1Arr 1, c1Arr 10, c1Arr 2, c1Arr 3, c1Arr 4, c1Arr 5,
   c1Arr 6, c1Arr 7, c1Arr 8, c1Arr 9]

/- ==================================================================
   Theorems
   ================================================================== -/

/-- C10: for every byte string whose first 5 bytes are not "EYED1" —
including blobs with an unrecognized prefix that is neither the NPZ
magic nor the encrypted-envelope marker — `decrypt` returns the data
unchanged and raises no error, whatever key (if any) is configured:
unknown-prefix data is silently passed through rather than rejected. -/
theorem decrypt_unknown_passthrough (key : Option (List Nat))
    (aesDec : List Nat → List Nat → List Nat → Except Unit (List Nat))
    (data : List Nat) (h : data.take 5 ≠ encryptedMagic) :
    decrypt key aesDec data = Except.ok data := by
  by_cases h1 : data = []
  · simp [decrypt, h1]
  · by_cases h2 : data.take 4 = npzMagic
    · simp [decrypt, h1, h2]
    · simp [decrypt, h1, h2, h]

/-- Witness for C10 at a concrete three-byte blob with a key configured
and an always-failing AES primitive. -/
theorem decrypt_unknown_passthrough_witness :
    ([9, 9, 9] : List Nat).take 5 ≠ encryptedMagic ∧
      decrypt (some (List.replicate 32 0)) (fun _ _ _ => Except.error ()) [9, 9, 9]
        = Except.ok [9, 9, 9] :=
  ⟨by decide, decrypt_unknown_passthrough _ _ _ (by decide)⟩

/-- C6: every failure shape of a remote HE decryption round trip —
transport unavailable, request failure or timeout, unparsable reply,
reply carrying an error field — yields the no-match result with
distance 1.0 and `is_match = false`; the embedding is total, matching
the catch-all handlers in the source, so nothing propagates to the
caller and a failure is never reported as a match. -/
theorem send_decrypt_request_failure_no_match :
    ∀ (o : DecryptOutcome), o.isFailure = true →
      send_decrypt_request o = noMatchResult ∧
      (send_decrypt_request o).is_match = false ∧
      (send_decrypt_request o).hamming_distance = 1 ∧
      ∀ (send : List PayloadEntry → MatchResult) (entries : List PayloadEntry),
        request_decrypt_batch false send entries = (noMatchResult, []) := by
  intro o ho
  cases o with
  | requestFailed => exact ⟨rfl, rfl, rfl, fun _ _ => rfl⟩
  | parseFailed => exact ⟨rfl, rfl, rfl, fun _ _ => rfl⟩
  | errorReply msg => exact ⟨rfl, rfl, rfl, fun _ _ => rfl⟩
  | reply hd im mid mname => simp [DecryptOutcome.isFailure] at ho

/-- Witness for C6 at the failed-request outcome. -/
theorem send_decrypt_request_failure_no_match_witness :
    DecryptOutcome.requestFailed.isFailure = true ∧
      send_decrypt_request DecryptOutcome.requestFailed = noMatchResult :=
  ⟨rfl, (send_decrypt_request_failure_no_match DecryptOutcome.requestFailed rfl).1⟩

/-- C8: with an empty gallery snapshot, both the plaintext and the HE
match paths return distance 1.0 with `is_match = false`, and their
effect traces are empty — in particular no store access happens. -/
theorem match_empty_gallery_no_store :
    ∀ (run : GalleryEntry → Option ℚ) (threshold : ℚ) (hasSK : Bool)
      (ip : Nat → Nat → Int) (probeCts : List Nat) (probePop : List Int)
      (remote : List GalleryEntry → MatchResult),
      matchOneToN run [] threshold = noMatchResult ∧
      matchOneToNEffects [] = [] ∧
      matchHeWithCts hasSK ip probeCts probePop remote [] threshold = noMatchResult ∧
      matchHeWithCtsEffects [] = [] := by
  intro run threshold hasSK ip probeCts probePop remote
  exact ⟨rfl, rfl, rfl, rfl⟩

/-- Every observation of a swap-free trace is the initial list. -/
theorem observations_no_swap (tr : List GEvent) :
    ∀ (cur : List GalleryEntry), swapsOf tr = [] →
      ∀ s ∈ observations tr cur, s = cur := by
  induction tr with
  | nil => intro cur _ s hs; simp [observations] at hs
  | cons ev tr ih =>
    intro cur h s hs
    cases ev with
    | snapshot =>
      have h2 : swapsOf tr = [] := by simpa [swapsOf] using h
      rcases (by simpa [observations] using hs : s = cur ∨ s ∈ observations tr cur) with h3 | h3
      · exact h3
      · exact ih cur h2 s h3
    | swap l => simp [swapsOf] at h

/-- C3: in any interleaving of one gallery reload with matching
operations — the reload builds its list outside the lock and installs it
with a single swap under the lock, each match clones the list reference
under the lock — every match observes either the complete pre-reload
list or the complete post-reload list, never a mixture. -/
theorem reload_snapshot_atomic (tr : List GEvent) (pre post : List GalleryEntry)
    (h : swapsOf tr = [post]) :
    ∀ s ∈ observations tr pre, s = pre ∨ s = post := by
  induction tr generalizing pre with
  | nil => intro s hs; simp [observations] at hs
  | cons ev tr ih =>
    intro s hs
    cases ev with
    | snapshot =>
      have h2 : swapsOf tr = [post] := by simpa [swapsOf] using h
      rcases (by simpa [observations] using hs : s = pre ∨ s ∈ observations tr pre) with h3 | h3
      · exact Or.inl h3
      · exact ih pre h2 s h3
    | swap l =>
      have h2 : l = post ∧ swapsOf tr = [] := by
        have := h
        simpa [swapsOf] using this
      have h3 : s ∈ observations tr l := by simpa [observations] using hs
      have h4 : s = l := observations_no_swap tr l h2.2 s h3
      exact Or.inr (by rw [← h2.1]; exact h4)

/-- Witness for C3 on the concrete trace snapshot, swap, snapshot with
an empty pre-reload gallery. -/
theorem reload_snapshot_atomic_witness :
    [c3Entry] = ([] : List GalleryEntry) ∨ [c3Entry] = [c3Entry] :=
  reload_snapshot_atomic [GEvent.snapshot, GEvent.swap [c3Entry], GEvent.snapshot]
    [] [c3Entry] (by simp [swapsOf]) [c3Entry] (by simp [observations])

/-- C9: batch enrollment derives `identity_id = uuid5(uuid5(NAMESPACE_URL,
"eyed:bulk:" + dataset), subject_id)` for every work item, and any two
result streams of runs over the same dataset — each a permutation of the
work-list assignments, since results are emitted in completion order —
assign every subject the same identity. -/
theorem batch_identity_deterministic
    (u5 : String → String → String) (dataset : String) (work : List WorkItem)
    (em1 em2 : List (String × String))
    (h1 : em1.Perm (batchAssignments u5 dataset work))
    (h2 : em2.Perm (batchAssignments u5 dataset work)) :
    batchAssignments u5 dataset work
      = work.map (fun w => (w.subject_id,
          u5 (u5 NAMESPACE_URL ("eyed:bulk:" ++ dataset)) w.subject_id)) ∧
    ∀ s id1 id2, (s, id1) ∈ em1 → (s, id2) ∈ em2 → id1 = id2 := by
  constructor
  · rfl
  · intro s id1 id2 hm1 hm2
    have g1 : (s, id1) ∈ batchAssignments u5 dataset work := h1.mem_iff.mp hm1
    have g2 : (s, id2) ∈ batchAssignments u5 dataset work := h2.mem_iff.mp hm2
    obtain ⟨w1, _, hw1⟩ := List.mem_map.mp g1
    obtain ⟨w2, _, hw2⟩ := List.mem_map.mp g2
    have e1s : w1.subject_id = s := congrArg Prod.fst hw1
    have e1i : batchIdentity u5 dataset w1.subject_id = id1 := congrArg Prod.snd hw1
    have e2s : w2.subject_id = s := congrArg Prod.fst hw2
    have e2i : batchIdentity u5 dataset w2.subject_id = id2 := congrArg Prod.snd hw2
    calc id1 = batchIdentity u5 dataset s := by rw [← e1i, e1s]
      _ = id2 := by rw [← e2s]; exact e2i

/-- Witness for C9 on a two-item work list with one emission stream in
work order and the other reversed. -/
theorem batch_identity_deterministic_witness :
    batchIdentity (fun a b => a ++ ":" ++ b) "ds" "s1"
      = batchIdentity (fun a b => a ++ ":" ++ b) "ds" "s1" :=
  (batch_identity_deterministic (fun a b => a ++ ":" ++ b) "ds"
      [{ subject_id := "s1", eye_side := "left", image_path := "p1" },
       { subject_id := "s2", eye_side := "right", image_path := "p2" }]
      _ _ (List.Perm.refl _)
      (List.reverse_perm _)).2 "s1" _ _ (by simp [batchAssignments])
    (by simp [batchAssignments])

/-- C7 counterexample: one pending record, the template bulk-insert
fails.  The pipelined pop has already truncated the queue, and the
failed insert is only logged, so the popped item is in neither the
queue nor the template table afterwards — it is lost, contradicting the
claim that popped items remain in the queue for retry on the next
tick. -/
theorem drain_failed_batch_lost :
    (drainFlush DrainOutcome.failTemplates 50 c7State).queue = [] ∧
    (drainFlush DrainOutcome.failTemplates 50 c7State).templates = [] ∧
    c7Item ∉ (drainFlush DrainOutcome.failTemplates 50 c7State).queue ∧
    c7Item ∉ (drainFlush DrainOutcome.failTemplates 50 c7State).templates := by
  decide

/-- C7 amended: each drain tick atomically pops up to `batch` items
(take plus drop of a single pipelined range-read and truncate), and the
items beyond the popped batch are exactly what remains queued for later
ticks.  On success the batch identities are deduplicated and upserted
and the templates bulk-inserted.  On failure the exception is only
logged, the popped items are discarded, and whatever committed before
the failing statement persists: a failure of the identity-upsert call
leaves the database unchanged, while a failure of the later
template-insert call leaves the identity upserts committed and only the
templates uninserted. -/
theorem drainFlush_spec (outcome : DrainOutcome) (batch : Nat) (s : DrainState) :
    (drainFlush outcome batch s).queue = s.queue.drop batch ∧
    s.queue.take batch ++ s.queue.drop batch = s.queue ∧
    (outcome = DrainOutcome.failIdentities →
      (drainFlush outcome batch s).templates = s.templates ∧
      (drainFlush outcome batch s).identities = s.identities) ∧
    (outcome = DrainOutcome.failTemplates →
      (drainFlush outcome batch s).templates = s.templates ∧
      (drainFlush outcome batch s).identities
        = (dedupIdentityRows (s.queue.take batch)).foldl upsertIdentity s.identities) ∧
    (outcome = DrainOutcome.ok →
      (drainFlush outcome batch s).templates = s.templates ++ s.queue.take batch ∧
      (drainFlush outcome batch s).identities
        = (dedupIdentityRows (s.queue.take batch)).foldl upsertIdentity s.identities) := by
  refine ⟨?_, List.take_append_drop _ _, ?_, ?_, ?_⟩
  · by_cases he : s.queue.take batch = [] <;> cases outcome <;>
      simp [drainFlush, pop_enrollments, he]
  · intro hf
    subst hf
    by_cases he : s.queue.take batch = [] <;> simp [drainFlush, pop_enrollments, he]
  · intro hf
    subst hf
    by_cases he : s.queue.take batch = [] <;>
      simp [drainFlush, pop_enrollments, he, dedupIdentityRows]
  · intro hf
    subst hf
    by_cases he : s.queue.take batch = [] <;>
      simp [drainFlush, pop_enrollments, he, dedupIdentityRows]

/-- Witness for C7 at a tick over the one-item queue whose template
insert fails after the identity upserts committed. -/
theorem drainFlush_spec_witness :
    (drainFlush DrainOutcome.failTemplates 1 c7State).templates = c7State.templates ∧
    (drainFlush DrainOutcome.failTemplates 1 c7State).queue = c7State.queue.drop 1 :=
  ⟨((drainFlush_spec DrainOutcome.failTemplates 1 c7State).2.2.2.1 rfl).1,
   (drainFlush_spec DrainOutcome.failTemplates 1 c7State).1⟩

/-- Characterization of the best-so-far loop: its distance is the
running minimum of the successful distances seeded with the initial
bound; it never exceeds the seed; when it improved on the seed, the best
entry is the first entry of the list attaining the final distance; when
it did not, the best entry is unchanged. -/
theorem matchScan_spec (run : GalleryEntry → Option ℚ) :
    ∀ (l : List GalleryEntry) (bd : ℚ) (be : Option GalleryEntry),
      (matchScan run l (bd, be)).1
          = l.foldl (fun b e => match run e with | some d => min b d | none => b) bd
        ∧ (matchScan run l (bd, be)).1 ≤ bd
        ∧ ((matchScan run l (bd, be)).1 < bd →
            (matchScan run l (bd, be)).2
              = l.find? (fun e => decide (run e = some (matchScan run l (bd, be)).1)))
        ∧ ((matchScan run l (bd, be)).1 = bd → (matchScan run l (bd, be)).2 = be) := by
  intro l
  induction l with
  | nil =>
    intro bd be
    exact ⟨rfl, le_refl _, fun h => absurd h (lt_irrefl _), fun _ => rfl⟩
  | cons e l ih =>
    intro bd be
    cases hrun : run e with
    | none =>
      have hstep : matchScan run (e :: l) (bd, be) = matchScan run l (bd, be) := by
        simp [matchScan, hrun]
      obtain ⟨ih1, ih2, ih3, ih4⟩ := ih bd be
      rw [hstep]
      refine ⟨?_, ih2, ?_, ih4⟩
      · rw [ih1, List.foldl_cons, hrun]
      · intro hlt
        rw [ih3 hlt, List.find?_cons_of_neg]
        simp [hrun]
    | some d =>
      by_cases hd : d < bd
      · have hstep : matchScan run (e :: l) (bd, be) = matchScan run l (d, some e) := by
          simp [matchScan, hrun, hd]
        obtain ⟨ih1, ih2, ih3, ih4⟩ := ih d (some e)
        rw [hstep]
        refine ⟨?_, le_trans ih2 (le_of_lt hd), ?_, ?_⟩
        · rw [ih1, List.foldl_cons, hrun]
          show List.foldl _ d l = List.foldl _ (min bd d) l
          rw [min_eq_right (le_of_lt hd)]
        · intro _
          by_cases hr : (matchScan run l (d, some e)).1 = d
          · rw [ih4 hr, List.find?_cons_of_pos]
            simp [hrun, hr]
          · have hlt2 : (matchScan run l (d, some e)).1 < d := lt_of_le_of_ne ih2 hr
            rw [ih3 hlt2, List.find?_cons_of_neg]
            simp [hrun]
            exact fun hh => hr hh.symm
        · intro hbd
          have hcon : (matchScan run l (d, some e)).1 < bd := lt_of_le_of_lt ih2 hd
          rw [hbd] at hcon
          exact absurd hcon (lt_irrefl _)
      · have hstep : matchScan run (e :: l) (bd, be) = matchScan run l (bd, be) := by
          simp [matchScan, hrun, hd]
        obtain ⟨ih1, ih2, ih3, ih4⟩ := ih bd be
        rw [hstep]
        refine ⟨?_, ih2, ?_, ih4⟩
        · rw [ih1, List.foldl_cons, hrun]
          show List.foldl _ bd l = List.foldl _ (min bd d) l
          rw [min_eq_left (le_of_not_lt hd)]
        · intro hlt
          rw [ih3 hlt, List.find?_cons_of_neg]
          simp [hrun]
          intro hh
          rw [← hh] at hlt
          exact hd hlt

/-- The running minimum never exceeds its seed. -/
theorem foldl_min_le_init : ∀ (l : List ℚ) (a : ℚ), l.foldl min a ≤ a := by
  intro l
  induction l with
  | nil => intro a; exact le_refl a
  | cons b l ih => intro a; exact le_trans (ih (min a b)) (min_le_left a b)

/-- The running minimum is a lower bound of the list. -/
theorem foldl_min_le_mem : ∀ (l : List ℚ) (a d : ℚ), d ∈ l → l.foldl min a ≤ d := by
  intro l
  induction l with
  | nil => intro a d hd; simp at hd
  | cons b l ih =>
    intro a d hd
    rcases List.mem_cons.mp hd with h | h
    · rw [h]; exact le_trans (foldl_min_le_init l (min a b)) (min_le_right a b)
    · exact ih (min a b) d h

/-- The running minimum is the seed or a member of the list. -/
theorem foldl_min_mem_or : ∀ (l : List ℚ) (a : ℚ), l.foldl min a = a ∨ l.foldl min a ∈ l := by
  intro l
  induction l with
  | nil => intro a; exact Or.inl rfl
  | cons b l ih =>
    intro a
    rcases ih (min a b) with h | h
    · rcases min_choice a b with hm | hm
      · exact Or.inl (by rw [List.foldl_cons, h, hm])
      · exact Or.inr (by rw [List.foldl_cons, h, hm]; exact List.mem_cons_self b l)
    · exact Or.inr (List.mem_cons_of_mem b h)

/-- The match-step fold equals the plain min fold over the successful
distances. -/
theorem foldl_match_eq_filterMap (run : GalleryEntry → Option ℚ) :
    ∀ (l : List GalleryEntry) (a : ℚ),
      l.foldl (fun b e => match run e with | some d => min b d | none => b) a
        = (l.filterMap run).foldl min a := by
  intro l
  induction l with
  | nil => intro a; rfl
  | cons e l ih =>
    intro a
    cases hrun : run e with
    | none => simp [List.filterMap_cons, hrun, ih]
    | some d => simp [List.filterMap_cons, hrun, ih]

/-- Skipped entries do not change the scan state. -/
theorem matchScan_filter (run : GalleryEntry → Option ℚ) :
    ∀ (l : List GalleryEntry) (s : ℚ × Option GalleryEntry),
      matchScan run (l.filter (fun e => (run e).isSome)) s = matchScan run l s := by
  intro l
  induction l with
  | nil => intro s; rfl
  | cons e l ih =>
    intro s
    obtain ⟨bd, be⟩ := s
    cases hrun : run e with
    | none => simp [List.filter_cons, hrun, matchScan, ih]
    | some d =>
      simp only [List.filter_cons, hrun, Option.isSome_some, if_pos]
      simp only [matchScan, hrun]
      by_cases hd : d < bd <;> simp [hd, ih]

/-- C2: on a non-empty snapshot with at least one successful per-entry
computation, all successful distances at most 1 (the normalized score is
clamped) and a threshold at most 1, the plaintext 1:N match returns the
minimum distance over the entries that succeeded, matches exactly when
that minimum is strictly below the threshold, reports the identity of
the earliest entry attaining the minimum, and failing entries are
skipped without affecting the outcome. -/
theorem matchOneToN_correct (run : GalleryEntry → Option ℚ)
    (entries : List GalleryEntry) (threshold : ℚ)
    (hne : entries ≠ [])
    (hsucc : entries.filterMap run ≠ [])
    (hle : ∀ d ∈ entries.filterMap run, d ≤ 1)
    (hthr : threshold ≤ 1) :
    (matchOneToN run entries threshold).hamming_distance ∈ entries.filterMap run ∧
    (∀ d ∈ entries.filterMap run, (matchOneToN run entries threshold).hamming_distance ≤ d) ∧
    ((matchOneToN run entries threshold).is_match = true ↔
      (matchOneToN run entries threshold).hamming_distance < threshold) ∧
    ((matchOneToN run entries threshold).is_match = true →
      (matchOneToN run entries threshold).matched_identity_id
        = (entries.find? (fun e =>
            decide (run e = some (matchOneToN run entries threshold).hamming_distance))).map
              (fun e => e.identity_id)) ∧
    matchOneToN run entries threshold
      = matchOneToN run (entries.filter (fun e => (run e).isSome)) threshold := by
  obtain ⟨sp1, sp2, sp3, sp4⟩ := matchScan_spec run entries 1 none
  have hfold : (matchScan run entries (1, none)).1 = (entries.filterMap run).foldl min 1 := by
    rw [sp1, foldl_match_eq_filterMap]
  have hunfold : matchOneToN run entries threshold
      = { hamming_distance := (matchScan run entries (1, none)).1
          is_match := decide ((matchScan run entries (1, none)).1 < threshold)
          matched_identity_id :=
            if (matchScan run entries (1, none)).1 < threshold then
              ((matchScan run entries (1, none)).2).map (fun e => e.identity_id)
            else none
          matched_identity_name :=
            if (matchScan run entries (1, none)).1 < threshold then
              ((matchScan run entries (1, none)).2).map (fun e => e.identity_name)
            else none
          best_rotation := 0 } := by
    rw [matchOneToN, if_neg hne]
  have hmem : (matchScan run entries (1, none)).1 ∈ entries.filterMap run := by
    rcases foldl_min_mem_or (entries.filterMap run) 1 with h | h
    · obtain ⟨d0, hd0⟩ := List.exists_mem_of_ne_nil _ hsucc
      have h1 : (matchScan run entries (1, none)).1 ≤ d0 := by
        rw [hfold]; exact foldl_min_le_mem _ _ _ hd0
      have h2 : d0 ≤ (matchScan run entries (1, none)).1 := by
        rw [hfold, h]; exact hle d0 hd0
      rw [le_antisymm h1 h2]
      exact hd0
    · rw [hfold]; exact h
  refine ⟨?_, ?_, ?_, ?_, ?_⟩
  · rw [hunfold]; exact hmem
  · intro d hd
    rw [hunfold]
    show (matchScan run entries (1, none)).1 ≤ d
    rw [hfold]
    exact foldl_min_le_mem _ _ _ hd
  · rw [hunfold]
    simp
  · intro him
    rw [hunfold] at him ⊢
    have hlt : (matchScan run entries (1, none)).1 < threshold := by
      simpa using him
    have hlt1 : (matchScan run entries (1, none)).1 < 1 := lt_of_lt_of_le hlt hthr
    show (if (matchScan run entries (1, none)).1 < threshold then
        ((matchScan run entries (1, none)).2).map (fun e => e.identity_id) else none) = _
    rw [if_pos hlt, sp3 hlt1]
  · have hfne : entries.filter (fun e => (run e).isSome) ≠ [] := by
      intro hf
      apply hsucc
      rw [List.filterMap_eq_nil_iff]
      intro a ha
      have := List.filter_eq_nil_iff.mp hf a ha
      exact Option.not_isSome_iff_eq_none.mp (by simpa using this)
    rw [matchOneToN, matchOneToN, if_neg hne, if_neg hfne, matchScan_filter]

/-- Witness for C2 on a two-entry snapshot whose first entry raises. -/
theorem matchOneToN_correct_witness :
    (matchOneToN c2Run c2Entries 1).hamming_distance ∈ c2Entries.filterMap c2Run :=
  (matchOneToN_correct c2Run c2Entries 1 (by decide) (by decide)
    (by decide) (le_refl 1)).1

/-- A filterMap by a function that succeeds on every member is a map. -/
theorem filterMap_eq_map_of {α β : Type} (f : α → Option β) (g : α → β) :
    ∀ (l : List α), (∀ a ∈ l, f a = some (g a)) → l.filterMap f = l.map g := by
  intro l
  induction l with
  | nil => intro _; rfl
  | cons a l ih =>
    intro h
    rw [List.filterMap_cons, h a (List.mem_cons_self a l), List.map_cons,
      ih (fun b hb => h b (List.mem_cons_of_mem a hb))]

/-- find? only depends on the predicate values on the list members. -/
theorem find?_congr_mem {α : Type} (p q : α → Bool) :
    ∀ (l : List α), (∀ e ∈ l, p e = q e) → l.find? p = l.find? q := by
  intro l
  induction l with
  | nil => intro _; rfl
  | cons a l ih =>
    intro h
    have ha := h a (List.mem_cons_self a l)
    by_cases hp : p a = true
    · rw [List.find?_cons_of_pos _ hp, List.find?_cons_of_pos _ (ha ▸ hp)]
    · have hq : ¬(q a = true) := by rw [← ha]; exact hp
      rw [List.find?_cons_of_neg _ hp, List.find?_cons_of_neg _ hq]
      exact ih (fun e he => h e (List.mem_cons_of_mem a he))

/-- Summing integer values divided by a constant equals dividing the
summed integers. -/
theorem sum_cast_div (g : Nat → Int) (c : ℚ) :
    ∀ (l : List Nat),
      (l.map (fun i => ((g i : Int) : ℚ) / c)).sum = (((l.map g).sum : Int) : ℚ) / c := by
  intro l
  induction l with
  | nil => simp
  | cons a l ih =>
    simp only [List.map_cons, List.sum_cons, ih, Int.cast_add, add_div]

/-- C4: in local HE matching the per-entry fractional distance is the
average over the compared scales of
(pop_probe + pop_gallery − 2·inner) / 8192, i.e. the summed XOR counts
divided by (number of compared scales × 8192 slots); the gallery entry
with the smallest such distance is returned as the match exactly when
that distance is strictly below the threshold, ties broken by earliest
occurrence. -/
theorem he_match_1n_local_correct
    (ip : Nat → Nat → Int) (probeCts : List Nat) (probePop : List Int)
    (entries : List GalleryEntry) (threshold : ℚ)
    (hne : entries ≠ [])
    (hcts : ∀ e ∈ entries, e.he_iris_cts ≠ [])
    (hpc : probeCts ≠ [])
    (hthr : threshold ≤ 1) :
    (∀ e ∈ entries,
      heEntryDistance ip probeCts probePop e
        = ((List.range (min probeCts.length e.he_iris_cts.length)).map (fun i =>
            ((probePop.getD i 0 + e.iris_popcount.getD i 0
              - 2 * ip (probeCts.getD i 0) (e.he_iris_cts.getD i 0) : Int) : ℚ)
              / ((IRIS_CODE_SLOTS : ℕ) : ℚ))).sum
          / ((min probeCts.length e.he_iris_cts.length : ℕ) : ℚ)) ∧
    ((he_match_1n_local ip probeCts probePop entries threshold).is_match = true ↔
      ∃ d ∈ entries.map (heEntryDistance ip probeCts probePop), d < threshold) ∧
    ((he_match_1n_local ip probeCts probePop entries threshold).is_match = true →
      (he_match_1n_local ip probeCts probePop entries threshold).hamming_distance
          ∈ entries.map (heEntryDistance ip probeCts probePop)
        ∧ (∀ d ∈ entries.map (heEntryDistance ip probeCts probePop),
            (he_match_1n_local ip probeCts probePop entries threshold).hamming_distance ≤ d)
        ∧ (he_match_1n_local ip probeCts probePop entries threshold).matched_identity_id
            = (entries.find? (fun e => decide (heEntryDistance ip probeCts probePop e
                = (he_match_1n_local ip probeCts probePop entries
                    threshold).hamming_distance))).map (fun e => e.identity_id)) := by
  have hrune : ∀ e ∈ entries,
      heRun ip probeCts probePop e = some (heEntryDistance ip probeCts probePop e) :=
    fun e he => by simp [heRun, hcts e he]
  have hfm : entries.filterMap (heRun ip probeCts probePop)
      = entries.map (heEntryDistance ip probeCts probePop) :=
    filterMap_eq_map_of _ _ entries hrune
  obtain ⟨sp1, sp2, sp3, sp4⟩ := matchScan_spec (heRun ip probeCts probePop) entries 1 none
  have hfold : (matchScan (heRun ip probeCts probePop) entries (1, none)).1
      = (entries.map (heEntryDistance ip probeCts probePop)).foldl min 1 := by
    rw [sp1, foldl_match_eq_filterMap, hfm]
  have hunfold : he_match_1n_local ip probeCts probePop entries threshold
      = { hamming_distance := (matchScan (heRun ip probeCts probePop) entries (1, none)).1
          is_match :=
            decide ((matchScan (heRun ip probeCts probePop) entries (1, none)).1 < threshold)
          matched_identity_id :=
            if (matchScan (heRun ip probeCts probePop) entries (1, none)).1 < threshold then
              ((matchScan (heRun ip probeCts probePop) entries (1, none)).2).map
                (fun e => e.identity_id)
            else none
          matched_identity_name :=
            if (matchScan (heRun ip probeCts probePop) entries (1, none)).1 < threshold then
              ((matchScan (heRun ip probeCts probePop) entries (1, none)).2).map
                (fun e => e.identity_name)
            else none } := by
    rw [he_match_1n_local, if_neg hne]
  have hmem : (matchScan (heRun ip probeCts probePop) entries (1, none)).1 < 1 →
      (matchScan (heRun ip probeCts probePop) entries (1, none)).1
        ∈ entries.map (heEntryDistance ip probeCts probePop) := by
    intro hlt1
    rcases foldl_min_mem_or (entries.map (heEntryDistance ip probeCts probePop)) 1 with h | h
    · rw [hfold, h] at hlt1
      exact absurd hlt1 (lt_irrefl _)
    · rw [hfold]; exact h
  refine ⟨?_, ?_, ?_⟩
  · intro e he
    have hn : 0 < min probeCts.length e.he_iris_cts.length :=
      lt_min (List.length_pos.mpr hpc) (List.length_pos.mpr (hcts e he))
    have hbits : 0 < min probeCts.length e.he_iris_cts.length * IRIS_CODE_SLOTS :=
      Nat.mul_pos hn (by decide)
    simp only [heEntryDistance]
    rw [if_pos hbits, sum_cast_div, div_div, Nat.cast_mul,
      mul_comm (((IRIS_CODE_SLOTS : ℕ) : ℚ)) _]
  · rw [hunfold]
    simp only [decide_eq_true_eq]
    constructor
    · intro hlt
      have hlt1 : (matchScan (heRun ip probeCts probePop) entries (1, none)).1 < 1 :=
        lt_of_lt_of_le hlt hthr
      exact ⟨_, hmem hlt1, hlt⟩
    · rintro ⟨d, hd, hdlt⟩
      have : (matchScan (heRun ip probeCts probePop) entries (1, none)).1 ≤ d := by
        rw [hfold]; exact foldl_min_le_mem _ _ _ hd
      exact lt_of_le_of_lt this hdlt
  · intro him
    rw [hunfold] at him ⊢
    have hlt : (matchScan (heRun ip probeCts probePop) entries (1, none)).1 < threshold := by
      simpa using him
    have hlt1 : (matchScan (heRun ip probeCts probePop) entries (1, none)).1 < 1 :=
      lt_of_lt_of_le hlt hthr
    refine ⟨hmem hlt1, ?_, ?_⟩
    · intro d hd
      show (matchScan (heRun ip probeCts probePop) entries (1, none)).1 ≤ d
      rw [hfold]
      exact foldl_min_le_mem _ _ _ hd
    · show (if (matchScan (heRun ip probeCts probePop) entries (1, none)).1 < threshold then
          ((matchScan (heRun ip probeCts probePop) entries (1, none)).2).map
            (fun e => e.identity_id)
        else none) = _
      rw [if_pos hlt, sp3 hlt1]
      congr 1
      apply find?_congr_mem
      intro e he
      rw [decide_eq_decide, hrune e he]
      exact Option.some_inj

/-- Witness for C4 on a one-entry gallery with a single scale. -/
theorem he_match_1n_local_correct_witness :
    heEntryDistance c4Ip c4Cts c4Pop c4Entry
      = ((List.range (min c4Cts.length c4Entry.he_iris_cts.length)).map (fun i =>
          ((c4Pop.getD i 0 + c4Entry.iris_popcount.getD i 0
            - 2 * c4Ip (c4Cts.getD i 0) (c4Entry.he_iris_cts.getD i 0) : Int) : ℚ)
            / ((IRIS_CODE_SLOTS : ℕ) : ℚ))).sum
        / ((min c4Cts.length c4Entry.he_iris_cts.length : ℕ) : ℚ) :=
  (he_match_1n_local_correct c4Ip c4Cts c4Pop c4Entries 1 (by decide) (by decide)
    (by decide) (le_refl 1)).1 c4Entry (by decide)

/-- The chunked-loop result is the running best over the replies of the
requests it sent, seeded with the incoming best. -/
theorem chunkLoop_result (send : List PayloadEntry → MatchResult) :
    ∀ (rest : List PayloadEntry) (best : MatchResult) (chunk : List PayloadEntry) (cts : Nat),
      (chunkLoop send best chunk cts rest).1
        = ((chunkLoop send best chunk cts rest).2.map send).foldl better best := by
  intro rest
  induction rest with
  | nil =>
    intro best chunk cts
    by_cases hc : chunk = []
    · simp [chunkLoop, hc]
    · simp [chunkLoop, hc]
  | cons e rest ih =>
    intro best chunk cts
    by_cases hcond : cts + e.length > MAX_CTS_PER_REQUEST ∧ chunk ≠ []
    · simp only [chunkLoop, if_pos hcond]
      rw [List.map_cons, List.foldl_cons]
      exact ih (better best (send chunk)) [e] e.length
    · simp only [chunkLoop, if_neg hcond]
      exact ih best (chunk ++ [e]) (cts + e.length)

/-- The requests sent by the chunked loop partition the pending chunk
followed by the remaining entries: nothing is dropped or duplicated. -/
theorem chunkLoop_join (send : List PayloadEntry → MatchResult) :
    ∀ (rest : List PayloadEntry) (best : MatchResult) (chunk : List PayloadEntry) (cts : Nat),
      (chunkLoop send best chunk cts rest).2.flatten = chunk ++ rest := by
  intro rest
  induction rest with
  | nil =>
    intro best chunk cts
    by_cases hc : chunk = []
    · simp [chunkLoop, hc]
    · simp [chunkLoop, hc]
  | cons e rest ih =>
    intro best chunk cts
    by_cases hcond : cts + e.length > MAX_CTS_PER_REQUEST ∧ chunk ≠ []
    · simp only [chunkLoop, if_pos hcond]
      rw [List.flatten_cons, ih (better best (send chunk)) [e] e.length]
      rfl
    · simp only [chunkLoop, if_neg hcond]
      rw [ih best (chunk ++ [e]) (cts + e.length), List.append_assoc]
      rfl

/-- When every entry fits the limit on its own, every request sent by
the chunked loop stays within the limit. -/
theorem chunkLoop_bound (send : List PayloadEntry → MatchResult) :
    ∀ (rest : List PayloadEntry), (∀ e ∈ rest, e.length ≤ MAX_CTS_PER_REQUEST) →
      ∀ (best : MatchResult) (chunk : List PayloadEntry) (cts : Nat),
        cts = sumCts chunk → sumCts chunk ≤ MAX_CTS_PER_REQUEST →
        ∀ r ∈ (chunkLoop send best chunk cts rest).2, sumCts r ≤ MAX_CTS_PER_REQUEST := by
  intro rest
  induction rest with
  | nil =>
    intro _ best chunk cts _ hle r hr
    by_cases hc : chunk = []
    · simp [chunkLoop, hc] at hr
    · simp only [chunkLoop, if_neg hc] at hr
      rcases (by simpa using hr : r = chunk) with rfl
      exact hle
  | cons e rest ih =>
    intro h best chunk cts hcts hle r hr
    have hnext : ∀ x ∈ rest, x.length ≤ MAX_CTS_PER_REQUEST :=
      fun x hx => h x (List.mem_cons_of_mem e hx)
    have hself : e.length ≤ MAX_CTS_PER_REQUEST := h e (List.mem_cons_self e rest)
    by_cases hcond : cts + e.length > MAX_CTS_PER_REQUEST ∧ chunk ≠ []
    · simp only [chunkLoop, if_pos hcond] at hr
      rcases List.mem_cons.mp hr with h1 | h1
      · rw [h1]; exact hle
      · exact ih hnext (better best (send chunk)) [e] e.length
          (by simp [sumCts]) (by simpa [sumCts] using hself) r h1
    · simp only [chunkLoop, if_neg hcond] at hr
      have hsum : sumCts (chunk ++ [e]) = sumCts chunk + e.length := by
        simp [sumCts]
      rcases not_and_or.mp hcond with h1 | h1
      · exact ih hnext best (chunk ++ [e]) (cts + e.length)
          (by rw [hsum, hcts]) (by rw [hsum, ← hcts]; exact le_of_not_lt h1) r hr
      · have hc0 : sumCts chunk = 0 := by rw [not_not.mp h1]; rfl
        exact ih hnext best (chunk ++ [e]) (cts + e.length)
          (by rw [hsum, hcts]) (by rw [hsum, hc0]; simpa using hself) r hr

/-- C5 counterexample: a batch holding one entry that carries 17
ciphertexts is sent as a single request carrying 17 > 16 ciphertexts —
the chunked loop never splits inside an entry, so the per-request limit
is exceeded, contradicting the claim that every request carries at most
`MAX_CTS_PER_REQUEST` ciphertexts. -/
theorem request_chunk_over_limit :
    (request_decrypt_batch true c5Send c5Entries).2 = [[List.range 17]] ∧
    (∃ r ∈ (request_decrypt_batch true c5Send c5Entries).2,
      MAX_CTS_PER_REQUEST < sumCts r) := by
  refine ⟨by decide, ⟨[List.range 17], by decide, by decide⟩⟩

/-- C5 amended: provided every entry individually carries at most
`MAX_CTS_PER_REQUEST` (16) ciphertexts, `request_decrypt_batch`
partitions the entries into requests each carrying at most 16
ciphertexts in total, no entry is dropped or duplicated, and the result
is the single reply when everything fits one request, and otherwise the
running best (minimum hamming_distance) over the per-chunk replies
seeded with the no-match result. -/
theorem request_decrypt_batch_chunking (send : List PayloadEntry → MatchResult)
    (entries : List PayloadEntry)
    (hmax : ∀ e ∈ entries, e.length ≤ MAX_CTS_PER_REQUEST) :
    (∀ r ∈ (request_decrypt_batch true send entries).2, sumCts r ≤ MAX_CTS_PER_REQUEST) ∧
    (request_decrypt_batch true send entries).2.flatten = entries ∧
    (request_decrypt_batch true send entries).1
      = (if sumCts entries ≤ MAX_CTS_PER_REQUEST then send entries
         else ((request_decrypt_batch true send entries).2.map send).foldl better
           noMatchResult) := by
  by_cases htot : sumCts entries ≤ MAX_CTS_PER_REQUEST
  · refine ⟨?_, ?_, ?_⟩
    · intro r hr
      have : r = entries := by
        simpa [request_decrypt_batch, htot] using hr
      rw [this]; exact htot
    · simp [request_decrypt_batch, htot]
    · simp [request_decrypt_batch, htot]
  · have hred : request_decrypt_batch true send entries
        = chunkLoop send noMatchResult [] 0 entries := by
      simp [request_decrypt_batch, htot]
    refine ⟨?_, ?_, ?_⟩
    · intro r hr
      rw [hred] at hr
      exact chunkLoop_bound send entries hmax noMatchResult [] 0 rfl
        (by simp [sumCts]) r hr
    · rw [hred, chunkLoop_join]
      rfl
    · rw [hred, if_neg htot]
      exact chunkLoop_result send entries noMatchResult [] 0

/-- Witness for C5 on a two-entry batch that fits a single request. -/
theorem request_decrypt_batch_chunking_witness :
    (request_decrypt_batch true c5Send [[1, 2], [3]]).2.flatten = [[1, 2], [3]] :=
  (request_decrypt_batch_chunking c5Send [[1, 2], [3]] (by decide)).2.1

/-- Looking every key of a duplicate-free association list up in that
list recovers the values. -/
theorem map_lookup_zip :
    ∀ (ks : List String) (vs : List NDArray), ks.Nodup → ks.length = vs.length →
      ks.map (fun k => lookupMember k (ks.zip vs)) = vs := by
  intro ks
  induction ks with
  | nil =>
    intro vs _ hlen
    cases vs with
    | nil => rfl
    | cons v vs => simp at hlen
  | cons k ks ih =>
    intro vs hnd hlen
    cases vs with
    | nil => simp at hlen
    | cons v vs =>
      obtain ⟨hk, hnd2⟩ := List.nodup_cons.mp hnd
      have hhead : lookupMember k ((k, v) :: ks.zip vs) = v := by
        simp [lookupMember]
      have htail : ∀ k2 ∈ ks,
          lookupMember k2 ((k, v) :: ks.zip vs) = lookupMember k2 (ks.zip vs) := by
        intro k2 hk2
        have hne : k2 ≠ k := fun hh => hk (hh ▸ hk2)
        simp [lookupMember, hne]
      rw [List.zip_cons_cons, List.map_cons, hhead,
        List.map_congr_left htail, ih vs hnd2 (by simpa using hlen)]

/-- The archive written for a list of codes pairs the member names with
the codes in positional order. -/
theorem mkArchive_eq_zip (codes : List NDArray) :
    mkArchive codes = (memberNames codes.length).zip codes := by
  unfold mkArchive memberNames
  rw [List.enum_eq_zip_range, List.zip_map_left]
  rfl

/-- The member names of the archive for a list of codes. -/
theorem map_fst_mkArchive (codes : List NDArray) :
    (mkArchive codes).map Prod.fst = memberNames codes.length := by
  rw [mkArchive_eq_zip]
  exact List.map_fst_zip _ _ (by simp [memberNames])

/-- Loading the archive in sorted member order recovers the codes
whenever sorting the member names leaves them in positional order. -/
theorem npzLoad_mkArchive (codes : List NDArray)
    (hnd : (memberNames codes.length).Nodup)
    (hsort : sortStrings (memberNames codes.length) = memberNames codes.length) :
    npzLoad (mkArchive codes) = codes := by
  unfold npzLoad
  rw [map_fst_mkArchive, hsort, mkArchive_eq_zip]
  exact map_lookup_zip (memberNames codes.length) codes hnd (by simp [memberNames])

/-- For at most ten members, the names `arr_0 ... arr_9` are distinct
and lexicographic sorting leaves them in positional order. -/
theorem sorted_names_of_le_ten :
    ∀ n : Nat, n ≤ 10 →
      sortStrings (memberNames n) = memberNames n ∧ (memberNames n).Nodup := by
  intro n hn
  interval_cases n <;> exact (by decide)

/-- C1 counterexample: packing eleven pairwise distinct arrays and
unpacking the blob (no key configured) yields the arrays reordered by
the lexicographic member-name sort — `arr_10` sorts between `arr_1` and
`arr_2` — so the round trip does not return the original list for lists
of 11 or more arrays. -/
theorem pack_unpack_order_lost :
    unpack_codes none (pack_codes none c1Codes) = Except.ok c1Shuffled ∧
    c1Shuffled ≠ c1Codes ∧
    unpack_codes none (pack_codes none c1Codes) ≠ Except.ok c1Codes := by
  have e1 : unpack_codes none (pack_codes none c1Codes) = Except.ok c1Shuffled := by rfl
  have e2 : c1Shuffled ≠ c1Codes := by decide
  refine ⟨e1, e2, ?_⟩
  intro h
  exact e2 (Except.ok.inj (e1.symm.trans h))

/-- C1 amended: for every list of at most ten binary arrays — member
indices a single digit, so the lexicographic sort of member names
coincides with positional order — and in both codec configurations
(encryption key absent, or present with the matching key on unpack),
`unpack_codes` after `pack_codes` returns the original list: same
length, same per-array shape and contents, same order.  For eleven or
more arrays the contents survive but the order follows the sorted
member names. -/
theorem pack_unpack_roundtrip (okey : Option (List Nat)) (codes : List NDArray)
    (hlen : codes.length ≤ 10) :
    unpack_codes okey (pack_codes okey codes) = Except.ok codes := by
  obtain ⟨hsort, hnd⟩ := sorted_names_of_le_ten codes.length hlen
  have hload := npzLoad_mkArchive codes hnd hsort
  cases okey with
  | none => simp [pack_codes, unpack_codes, hload]
  | some k => simp [pack_codes, unpack_codes, hload]

/-- Witness for C1 with a key configured and a single two-element array. -/
theorem pack_unpack_roundtrip_witness :
    unpack_codes (some [1, 2]) (pack_codes (some [1, 2]) [{ shape := [2], data := [5, 7] }])
      = Except.ok [{ shape := [2], data := [5, 7] }] :=
  pack_unpack_roundtrip (some [1, 2]) [{ shape := [2], data := [5, 7] }] (by decide)

end EyeD
